import Mathlib

/-!
Verification of the micro-sam annotator widget layer
(`micro_sam/sam_annotator/_widgets.py` and
`micro_sam/sam_annotator/annotator_3d.py`).

Layers (napari label layers) are embedded as lists of Nat pixel labels,
volumes as lists of slices; the tracking lineage (a Python dict preserving
insertion order) as an association list.  Fallible oracle calls
(`prompt_segmentation`, the AMG state computation) are abstract function
parameters, since those collaborators live outside the two source files.
-/

namespace MicroSam

/-! ### `_process_tiling_inputs` (_widgets.py, lines 272-303)

The widget constrains all four inputs to `min = 0`, so they are embedded
as `Nat`.  The Python function normalizes `(tile_shape_x, tile_shape_y)`
and `(halo_x, halo_y)` to `Option (Nat × Nat)` values, where `none`
encodes Python's `None`. -/

def processTilingTileShape (tile_shape_x tile_shape_y : Nat) : Option (Nat × Nat) :=
  -- check if tile_shape is not set: (0, 0)
  if tile_shape_x = 0 ∧ tile_shape_y = 0 then
    none
  -- check if at least 1 param is given (exactly one component is 0 here)
  else if tile_shape_x = 0 ∨ tile_shape_y = 0 then
    let max_val := max tile_shape_x tile_shape_y
    let max_val := if max_val < 256 then 256 else max_val
    some (max_val, max_val)
  -- if both inputs given, check if smaller than 256
  else
    some ((if tile_shape_x < 256 then 256 else tile_shape_x),
          (if tile_shape_y < 256 then 256 else tile_shape_y))

def processTilingHalo (tileShape : Option (Nat × Nat)) (halo_x halo_y : Nat) :
    Option (Nat × Nat) :=
  if halo_x = 0 ∧ halo_y = 0 then
    if tileShape ≠ none then some (0, 0) else none
  else
    -- don't apply halo if there is no tiling
    match tileShape with
    | none => none
    | some _ => some (max halo_x halo_y, max halo_x halo_y)

def process_tiling_inputs (tile_shape_x tile_shape_y halo_x halo_y : Nat) :
    Option (Nat × Nat) × Option (Nat × Nat) :=
  let tileShape := processTilingTileShape tile_shape_x tile_shape_y
  (tileShape, processTilingHalo tileShape halo_x halo_y)

/-! ### `_commit_impl` (_widgets.py, lines 83-116)

`committed_objects` and the committed-from layer are volumes of the same
shape.  `_commit_impl` computes `id_offset` as the maximum over the full
`committed_objects` layer, takes `seg = layer.data[bb]` for the bounding
box given by `state.z_range`, and writes `seg[mask] + id_offset` into
`committed_objects` at every in-range pixel where `seg != 0`. -/

def listMax (xs : List Nat) : Nat := xs.foldr max 0

def volMax (v : List (List Nat)) : Nat := listMax (v.map listMax)

/-- The bounding box `bb = np.s_[:]` when `z_range` is `None`, else
`np.s_[z_min:(z_max+1)]`: slice `z` is inside `bb` iff `z_min ≤ z ≤ z_max`. -/
def inRangeB (zr : Option (Nat × Nat)) (z : Nat) : Bool :=
  match zr with
  | none => true
  | some (zmin, zmax) => zmin ≤ z && z ≤ zmax

/-- One slice of the committed write: where the source pixel is nonzero it
becomes `source + id_offset`, elsewhere the committed pixel is kept. -/
def commitSlice (off : Nat) (src comm : List Nat) : List Nat :=
  List.zipWith (fun s c => if s ≠ 0 then s + off else c) src comm

def commitVol (zr : Option (Nat × Nat)) (off : Nat) :
    Nat → List (List Nat) → List (List Nat) → List (List Nat)
  | _, _, [] => []
  | _, [], comm => comm
  | z, s :: src, c :: comm =>
      (if inRangeB zr z then commitSlice off s c else c) :: commitVol zr off (z + 1) src comm

/-- `_commit_impl`: returns `(id_offset, committed_objects')`. -/
def commitImpl (zr : Option (Nat × Nat)) (src comm : List (List Nat)) :
    Nat × List (List Nat) :=
  let off := volMax comm
  (off, commitVol zr off 0 src comm)

/-! ### Stacking in `_segment_volume` (_widgets.py, lines 674-696)

For each slice `i` the per-slice instance segmentation `seg` is computed;
if `seg.max() == 0` the slice of the output stays all-zero, else
`seg[seg != 0] += offset` and `offset = seg_max + offset`. -/

def shiftSlice (off : Nat) (seg : List Nat) : List Nat :=
  seg.map (fun v => if v ≠ 0 then v + off else v)

def stackSlices (off : Nat) : List (List Nat) → List (List Nat)
  | [] => []
  | seg :: rest =>
      if listMax seg = 0 then List.replicate seg.length 0 :: stackSlices off rest
      else shiftSlice off seg :: stackSlices (listMax seg + off) rest

/-! Basic facts about `listMax` / `volMax`. -/

theorem listMax_cons (x : Nat) (xs : List Nat) : listMax (x :: xs) = max x (listMax xs) := rfl

theorem volMax_cons (s : List Nat) (v : List (List Nat)) :
    volMax (s :: v) = max (listMax s) (volMax v) := rfl

theorem getD_le_listMax (xs : List Nat) (j : Nat) : xs.getD j 0 ≤ listMax xs := by
  induction xs generalizing j with
  | nil => simp [listMax]
  | cons x t ih =>
    cases j with
    | zero => simp [listMax_cons]
    | succ j => simpa [listMax_cons] using Nat.le_trans (ih j) (Nat.le_max_right _ _)

theorem slice_le_volMax (v : List (List Nat)) (z : Nat) :
    listMax (v.getD z []) ≤ volMax v := by
  induction v generalizing z with
  | nil => simp [volMax, listMax]
  | cons s t ih =>
    cases z with
    | zero => simp [volMax_cons]
    | succ z => simpa [volMax_cons] using Nat.le_trans (ih z) (Nat.le_max_right _ _)

theorem pixel_le_volMax (v : List (List Nat)) (z j : Nat) :
    (v.getD z []).getD j 0 ≤ volMax v :=
  Nat.le_trans (getD_le_listMax _ j) (slice_le_volMax v z)

theorem commitSlice_getD (off : Nat) (s c : List Nat) (hlen : s.length = c.length) :
    ∀ j, (commitSlice off s c).getD j 0 =
      if j < s.length ∧ s.getD j 0 ≠ 0 then s.getD j 0 + off else c.getD j 0 := by
  induction s generalizing c with
  | nil =>
    intro j
    cases c with
    | nil => simp [commitSlice]
    | cons _ _ => simp at hlen
  | cons x t ih =>
    intro j
    cases c with
    | nil => simp at hlen
    | cons y u =>
      cases j with
      | zero => by_cases hx : x = 0 <;> simp [commitSlice, hx]
      | succ j =>
        have := ih u (by simpa using hlen) j
        simpa [commitSlice] using this

theorem listMax_commitSlice_ge (off : Nat) (s c : List Nat)
    (hlen : s.length = c.length) (hc : listMax c ≤ off) :
    listMax c ≤ listMax (commitSlice off s c) := by
  induction s generalizing c with
  | nil =>
    cases c with
    | nil => exact Nat.le.refl
    | cons _ _ => simp at hlen
  | cons x t ih =>
    cases c with
    | nil => simp at hlen
    | cons y u =>
      have hu : listMax u ≤ off := by
        have := Nat.le_max_right y (listMax u)
        simp only [listMax_cons] at hc
        omega
      have htail := ih u (by simpa using hlen) hu
      have hy : y ≤ off := by
        simp only [listMax_cons] at hc
        omega
      have hstep : commitSlice off (x :: t) (y :: u)
          = (if x ≠ 0 then x + off else y) :: commitSlice off t u := rfl
      rw [hstep, listMax_cons, listMax_cons]
      by_cases hx : x = 0
      · rw [if_neg (by simp [hx])]
        omega
      · rw [if_pos hx]
        omega

theorem commitVol_getD (zr : Option (Nat × Nat)) (off : Nat) (src comm : List (List Nat))
    (H : List.Forall₂ (fun s c => s.length = c.length) src comm) :
    ∀ z0 i, (commitVol zr off z0 src comm).getD i [] =
      if inRangeB zr (z0 + i) then commitSlice off (src.getD i []) (comm.getD i [])
      else comm.getD i [] := by
  induction H with
  | nil =>
    intro z0 i
    simp [commitVol, commitSlice]
  | @cons s c src comm hsc _ ih =>
    intro z0 i
    cases i with
    | zero =>
      simp only [commitVol, Nat.add_zero, List.getD_cons_zero]
    | succ i =>
      have hrec := ih (z0 + 1) i
      have harith : z0 + 1 + i = z0 + (i + 1) := by omega
      rw [harith] at hrec
      simp only [commitVol, List.getD_cons_succ]
      exact hrec

theorem volMax_commitVol_ge (zr : Option (Nat × Nat)) (off : Nat)
    (src comm : List (List Nat))
    (H : List.Forall₂ (fun s c => s.length = c.length) src comm)
    (hoff : volMax comm ≤ off) :
    ∀ z0, volMax comm ≤ volMax (commitVol zr off z0 src comm) := by
  induction H with
  | nil => intro z0; simp [commitVol]
  | @cons s c src comm hsc _ ih =>
    intro z0
    have hc : listMax c ≤ off := by
      have := Nat.le_max_left (listMax c) (volMax comm)
      simp only [volMax_cons] at hoff
      omega
    have hcomm : volMax comm ≤ off := by
      have := Nat.le_max_right (listMax c) (volMax comm)
      simp only [volMax_cons] at hoff
      omega
    have htail := ih hcomm (z0 + 1)
    simp only [commitVol, volMax_cons]
    split
    · have hhead := listMax_commitSlice_ge off s c hsc hc
      omega
    · omega

theorem listMax_replicate_zero (n : Nat) : listMax (List.replicate n 0) = 0 := by
  induction n with
  | zero => rfl
  | succ n ih => simp [List.replicate, listMax_cons, ih]

theorem listMax_shiftSlice (off : Nat) (seg : List Nat) :
    listMax (shiftSlice off seg) = if listMax seg = 0 then 0 else listMax seg + off := by
  induction seg with
  | nil => simp [shiftSlice, listMax]
  | cons v t ih =>
    have hstep : shiftSlice off (v :: t) = (if v ≠ 0 then v + off else v) :: shiftSlice off t := rfl
    rw [hstep, listMax_cons, listMax_cons, ih]
    by_cases hv : v = 0 <;> by_cases ht : listMax t = 0 <;> simp [hv, ht] <;> omega

theorem stackSlices_getD (segs : List (List Nat)) :
    ∀ off0 i, i < segs.length → listMax (segs.getD i []) ≠ 0 →
      (stackSlices off0 segs).getD i [] =
        shiftSlice (max off0 (volMax ((stackSlices off0 segs).take i))) (segs.getD i []) := by
  induction segs with
  | nil => intro off0 i hi; simp at hi
  | cons seg rest ih =>
    intro off0 i hi hnz
    by_cases hm : listMax seg = 0
    · have hstep : stackSlices off0 (seg :: rest)
          = List.replicate seg.length 0 :: stackSlices off0 rest := by
        simp [stackSlices, hm]
      cases i with
      | zero => simp only [List.getD_cons_zero] at hnz; exact absurd hm hnz
      | succ i =>
        rw [hstep]
        simp only [List.getD_cons_succ, List.take_succ_cons, volMax_cons,
          listMax_replicate_zero]
        have hrw : max off0 (max 0 (volMax ((stackSlices off0 rest).take i)))
            = max off0 (volMax ((stackSlices off0 rest).take i)) := by omega
        rw [hrw]
        exact ih off0 i (by simpa using hi) (by simpa using hnz)
    · have hstep : stackSlices off0 (seg :: rest)
          = shiftSlice off0 seg :: stackSlices (listMax seg + off0) rest := by
        simp [stackSlices, hm]
      cases i with
      | zero =>
        rw [hstep]
        simp only [List.getD_cons_zero, List.take_zero]
        have hrw : max off0 (volMax ([] : List (List Nat))) = off0 := by
          simp [volMax, listMax]
        rw [hrw]
      | succ i =>
        rw [hstep]
        simp only [List.getD_cons_succ, List.take_succ_cons, volMax_cons,
          listMax_shiftSlice, if_neg hm]
        have hrec := ih (listMax seg + off0) i (by simpa using hi) (by simpa using hnz)
        have hrw : max off0 (max (listMax seg + off0)
              (volMax ((stackSlices (listMax seg + off0) rest).take i)))
            = max (listMax seg + off0)
              (volMax ((stackSlices (listMax seg + off0) rest).take i)) := by omega
        rw [hrw]
        exact hrec

end MicroSam

namespace MicroSam

/-- C1: In `_commit_impl` each newly committed nonzero object id equals its id
in the source layer plus the maximum id already present in the
`committed_objects` layer before the commit (the `id_offset`), hence it is
strictly larger than — and so never collides with — every id previously
present in `committed_objects`; the maximum committed id is monotonically
non-decreasing across a commit.  In `_segment_volume`, each slice whose
per-slice segmentation is nonzero has its nonzero local ids shifted by the
running maximum of all ids assigned to earlier slices of the stacked
segmentation. -/
theorem commit_id_offset_spec (zr : Option (Nat × Nat)) (src comm segs : List (List Nat))
    (H : List.Forall₂ (fun s c => s.length = c.length) src comm) :
    (commitImpl zr src comm).1 = volMax comm ∧
    (∀ z j, inRangeB zr z = true → j < (src.getD z []).length →
        (src.getD z []).getD j 0 ≠ 0 →
        ((commitImpl zr src comm).2.getD z []).getD j 0
            = (src.getD z []).getD j 0 + volMax comm ∧
        ∀ z' j', (comm.getD z' []).getD j' 0
            < ((commitImpl zr src comm).2.getD z []).getD j 0) ∧
    volMax comm ≤ volMax (commitImpl zr src comm).2 ∧
    (∀ i, i < segs.length → listMax (segs.getD i []) ≠ 0 →
        (stackSlices 0 segs).getD i []
            = shiftSlice (volMax ((stackSlices 0 segs).take i)) (segs.getD i [])) := by
  have hlen : ∀ z, (src.getD z []).length = (comm.getD z []).length := by
    intro z
    induction H generalizing z with
    | nil => rfl
    | cons hsc _ ih =>
      cases z with
      | zero => simpa using hsc
      | succ z => simpa using ih z
  refine ⟨rfl, ?_, ?_, ?_⟩
  · intro z j hz hj hnz
    have hvol := commitVol_getD zr (volMax comm) src comm H 0 z
    simp only [Nat.zero_add] at hvol
    have hpix : ((commitImpl zr src comm).2.getD z []).getD j 0
        = (src.getD z []).getD j 0 + volMax comm := by
      simp only [commitImpl]
      rw [hvol, if_pos hz, commitSlice_getD _ _ _ (hlen z) j, if_pos ⟨hj, hnz⟩]
    refine ⟨hpix, ?_⟩
    intro z' j'
    have hold := pixel_le_volMax comm z' j'
    omega
  · exact volMax_commitVol_ge zr (volMax comm) src comm H Nat.le.refl 0
  · intro i hi hnz
    have := stackSlices_getD segs 0 i hi hnz
    rwa [Nat.max_eq_right (Nat.zero_le _)] at this

/-- Witness for C1 at a concrete input: committing the layer
`[[0,1],[2,0]]` over committed objects `[[5,0],[2,3]]` (no `z_range`), and
stacking the per-slice segmentations `[[1,2],[0,0],[3]]`. -/
theorem commit_id_offset_spec_witness :
    (commitImpl none [[0,1],[2,0]] [[5,0],[2,3]]).1 = volMax [[5,0],[2,3]] ∧
    ((commitImpl none [[0,1],[2,0]] [[5,0],[2,3]]).2.getD 0 []).getD 1 0
        = ([0,1] : List Nat).getD 1 0 + volMax [[5,0],[2,3]] ∧
    (stackSlices 0 [[1,2],[0,0],[3]]).getD 2 []
        = shiftSlice (volMax ((stackSlices 0 [[1,2],[0,0],[3]]).take 2)) ([3] : List Nat) := by
  have h := commit_id_offset_spec none [[0,1],[2,0]] [[5,0],[2,3]] [[1,2],[0,0],[3]]
    (by decide)
  obtain ⟨h1, h2, -, h4⟩ := h
  refine ⟨h1, ?_, ?_⟩
  · exact (h2 0 1 (by decide) (by decide) (by decide)).1
  · exact h4 2 (by decide) (by decide)

/-! ### Tracking state (_widgets.py: `_reset_tracking_state` 36-54,
`commit_track` 220-246, `_update_lineage` 499-520, `track_object` 558-595)

`state.lineage` is a Python dict from track id to list of child track ids;
dicts are embedded as association lists with Python's assignment semantics
(update the existing key in place, else append). -/

def setEntry {α : Type} : List (Nat × α) → Nat → α → List (Nat × α)
  | [], k, v => [(k, v)]
  | (k', v') :: rest, k, v =>
      if k' = k then (k, v) :: rest else (k', v') :: setEntry rest k v

theorem lookup_cons_self {α : Type} (k : Nat) (v : α) (rest : List (Nat × α)) :
    ((k, v) :: rest).lookup k = some v := by
  simp [List.lookup]

theorem lookup_cons_ne {α : Type} (k k' : Nat) (v' : α) (rest : List (Nat × α))
    (h : k ≠ k') : ((k', v') :: rest).lookup k = rest.lookup k := by
  have hb : (k == k') = false := by simpa using h
  simp [List.lookup, hb]

theorem lookup_setEntry_self {α : Type} (l : List (Nat × α)) (k : Nat) (v : α) :
    (setEntry l k v).lookup k = some v := by
  induction l with
  | nil => simp [setEntry, List.lookup]
  | cons p rest ih =>
    obtain ⟨k', v'⟩ := p
    by_cases h : k' = k
    · simp [setEntry, h, lookup_cons_self]
    · rw [show setEntry ((k', v') :: rest) k v = (k', v') :: setEntry rest k v from by
        simp [setEntry, h]]
      rw [lookup_cons_ne k k' v' _ (Ne.symm h)]
      exact ih

theorem lookup_setEntry_ne {α : Type} (l : List (Nat × α)) (k j : Nat) (v : α)
    (h : j ≠ k) : (setEntry l k v).lookup j = l.lookup j := by
  induction l with
  | nil =>
    have hb : (j == k) = false := by simpa using h
    simp [setEntry, List.lookup, hb]
  | cons p rest ih =>
    obtain ⟨k', v'⟩ := p
    by_cases hk : k' = k
    · subst hk
      rw [show setEntry ((k', v') :: rest) k' v = (k', v) :: rest from by simp [setEntry]]
      rw [lookup_cons_ne j k' v _ h, lookup_cons_ne j k' v' _ h]
    · rw [show setEntry ((k', v') :: rest) k v = (k', v') :: setEntry rest k v from by
        simp [setEntry, hk]]
      by_cases hj : j = k'
      · subst hj
        rw [lookup_cons_self, lookup_cons_self]
      · rw [lookup_cons_ne j k' v' _ hj, lookup_cons_ne j k' v' _ hj]
        exact ih

theorem lookup_none_of_keys_le {α : Type} (l : List (Nat × α)) (m j : Nat)
    (hk : ∀ k ∈ l.map Prod.fst, k ≤ m) (hj : m < j) : l.lookup j = none := by
  induction l with
  | nil => rfl
  | cons p rest ih =>
    obtain ⟨k', v'⟩ := p
    have hk' : k' ≤ m := hk k' (by simp)
    rw [lookup_cons_ne j k' v' rest (by omega)]
    exact ih (fun k hmem => hk k (by simp [hmem]))

structure TrackState where
  committed : List (List Nat)
  current_object : List (List Nat)
  z_range : Option (Nat × Nat)
  current_track_id : Nat
  lineage : List (Nat × List Nat)
  committed_lineages : List (List (Nat × List Nat))
deriving DecidableEq

/-- `_update_lineage` (lines 499-520): the daughters are
`current_track_id + 1` and `current_track_id + 2`; the widget/menu updates
are outside this embedding. -/
def updateLineage (s : TrackState) : TrackState :=
  let mother := s.current_track_id
  let daughter1 := mother + 1
  let daughter2 := mother + 2
  { s with lineage :=
      setEntry (setEntry (setEntry s.lineage mother [daughter1, daughter2]) daughter1 []) daughter2 [] }

/-- The division handling at the end of `track_object` (lines 586-589):
`_update_lineage` runs only when a division occurred and the current
track's child list is empty. -/
def trackDivisionStep (has_division : Bool) (s : TrackState) : TrackState :=
  if has_division = true ∧ s.lineage.lookup s.current_track_id = some [] then updateLineage s
  else s

/-- `_reset_tracking_state` (lines 36-54): resets the track id and the
session lineage; the layer property and menu resets are outside this
embedding. -/
def resetTrackingState (s : TrackState) : TrackState :=
  { s with current_track_id := 1, lineage := [(1, [])] }

def shiftLineage (off : Nat) (l : List (Nat × List Nat)) : List (Nat × List Nat) :=
  l.map (fun p => (p.1 + off, p.2.map (· + off)))

/-- `commit_track` (lines 220-246): commit the layer, append the
offset-shifted session lineage to `committed_lineages`, clear the
annotations (the `current_object` layer), and reset the tracking state.
(`_commit_to_file` only writes external storage.) -/
def commitTrack (s : TrackState) : TrackState :=
  let id_offset := (commitImpl s.z_range s.current_object s.committed).1
  let comm' := (commitImpl s.z_range s.current_object s.committed).2
  resetTrackingState
    { s with committed := comm',
             current_object := s.current_object.map (fun sl => sl.map (fun _ => 0)),
             committed_lineages := s.committed_lineages ++ [shiftLineage id_offset s.lineage] }

theorem updateLineage_lookup_mother (s : TrackState) :
    (updateLineage s).lineage.lookup s.current_track_id
      = some [s.current_track_id + 1, s.current_track_id + 2] := by
  unfold updateLineage
  rw [lookup_setEntry_ne _ _ _ _ (by omega), lookup_setEntry_ne _ _ _ _ (by omega),
    lookup_setEntry_self]

theorem updateLineage_lookup_daughter1 (s : TrackState) :
    (updateLineage s).lineage.lookup (s.current_track_id + 1) = some [] := by
  unfold updateLineage
  rw [lookup_setEntry_ne _ _ _ _ (by omega), lookup_setEntry_self]

theorem updateLineage_lookup_daughter2 (s : TrackState) :
    (updateLineage s).lineage.lookup (s.current_track_id + 2) = some [] := by
  unfold updateLineage
  rw [lookup_setEntry_self]

theorem updateLineage_current (s : TrackState) :
    (updateLineage s).current_track_id = s.current_track_id := rfl

end MicroSam

namespace MicroSam

/-- C2 counterexample: with session lineage `{1: [2, 3], 2: [], 3: []}` and
current track id 2 — reachable after a division of track 1 and selection of
track 2 — a division event for track 2 allocates the children `(3, 4)`,
although 3 is already a used track id (a child of 1); the children are
therefore not the next two unused track ids. -/
theorem update_lineage_next_unused_counterexample :
    (([(1, [2, 3]), (2, ([] : List Nat)), (3, [])]).lookup 3 = some []) ∧
    ((trackDivisionStep true
        { committed := [], current_object := [], z_range := none,
          current_track_id := 2,
          lineage := [(1, [2, 3]), (2, []), (3, [])],
          committed_lineages := [] }).lineage.lookup 2 = some [3, 4]) := by
  decide

/-- C2 (amended): when a tracking run reports a division event for the
current track id and its child list is empty, `_update_lineage` runs and the
two child tracks are allocated as `current_track_id + 1` and
`current_track_id + 2`; the lineage mapping gains
`parent -> [child_a, child_b]` and both children are entered with empty
child lists.  The children are the next two unused track ids whenever the
current track id is maximal among the lineage's track ids. -/
theorem update_lineage_spec (s : TrackState)
    (hmem : s.lineage.lookup s.current_track_id = some []) :
    trackDivisionStep true s = updateLineage s ∧
    (updateLineage s).lineage.lookup s.current_track_id
        = some [s.current_track_id + 1, s.current_track_id + 2] ∧
    (updateLineage s).lineage.lookup (s.current_track_id + 1) = some [] ∧
    (updateLineage s).lineage.lookup (s.current_track_id + 2) = some [] ∧
    ((∀ k ∈ s.lineage.map Prod.fst, k ≤ s.current_track_id) →
        s.lineage.lookup (s.current_track_id + 1) = none ∧
        s.lineage.lookup (s.current_track_id + 2) = none) := by
  refine ⟨?_, updateLineage_lookup_mother s, updateLineage_lookup_daughter1 s,
    updateLineage_lookup_daughter2 s, ?_⟩
  · simp [trackDivisionStep, hmem]
  · intro hmax
    exact ⟨lookup_none_of_keys_le s.lineage s.current_track_id _ hmax (by omega),
      lookup_none_of_keys_le s.lineage s.current_track_id _ hmax (by omega)⟩

/-- Witness for C2 (amended) at a concrete input: a fresh session
(`lineage = {1: []}`, current track id 1) records the division
`1 -> [2, 3]`. -/
theorem update_lineage_spec_witness :
    (updateLineage
        { committed := [], current_object := [], z_range := none,
          current_track_id := 1, lineage := [(1, [])],
          committed_lineages := [] }).lineage.lookup 1 = some [2, 3] := by
  have h := update_lineage_spec
    { committed := [], current_object := [], z_range := none,
      current_track_id := 1, lineage := [(1, [])],
      committed_lineages := [] } (by decide)
  simpa using h.2.1

/-- C3: recording a division is idempotent: when the current track id
already maps to a non-empty child list, a further division event is a
no-op leaving the whole state (in particular the lineage map) unchanged;
two consecutive division events with no intervening reset leave the same
child pair for the parent both times. -/
theorem track_division_idempotent_spec (s : TrackState) (cs : List Nat)
    (hcs : s.lineage.lookup s.current_track_id = some cs) :
    (cs ≠ [] → ∀ d, trackDivisionStep d s = s) ∧
    trackDivisionStep true (trackDivisionStep true s) = trackDivisionStep true s ∧
    (∀ children,
      (trackDivisionStep true s).lineage.lookup s.current_track_id = some children →
      (trackDivisionStep true (trackDivisionStep true s)).lineage.lookup
          s.current_track_id = some children) := by
  have hidem : trackDivisionStep true (trackDivisionStep true s) = trackDivisionStep true s := by
    by_cases hc : s.lineage.lookup s.current_track_id = some []
    · have h1 : trackDivisionStep true s = updateLineage s := by
        simp [trackDivisionStep, hc]
      rw [h1]
      have h2 : (updateLineage s).lineage.lookup (updateLineage s).current_track_id
          = some [s.current_track_id + 1, s.current_track_id + 2] := by
        rw [updateLineage_current]
        exact updateLineage_lookup_mother s
      simp [trackDivisionStep, h2]
    · have h1 : trackDivisionStep true s = s := by
        simp [trackDivisionStep, hc]
      rw [h1, h1]
  refine ⟨?_, hidem, ?_⟩
  · intro hne d
    have : ¬ (d = true ∧ s.lineage.lookup s.current_track_id = some []) := by
      rintro ⟨-, h⟩
      rw [hcs] at h
      exact hne (by injection h)
    simp [trackDivisionStep, this]
  · intro children hch
    rw [hidem]
    exact hch

/-- Witness for C3 at a concrete input: with lineage `{1: [2, 3]}` (track 1
already divided) a further division event for track 1 is a no-op. -/
theorem track_division_idempotent_spec_witness :
    trackDivisionStep true
        { committed := [], current_object := [], z_range := none,
          current_track_id := 1, lineage := [(1, [2, 3])],
          committed_lineages := [] }
      = { committed := [], current_object := [], z_range := none,
          current_track_id := 1, lineage := [(1, [2, 3])],
          committed_lineages := [] } := by
  have h := track_division_idempotent_spec
    { committed := [], current_object := [], z_range := none,
      current_track_id := 1, lineage := [(1, [2, 3])],
      committed_lineages := [] } [2, 3] (by decide)
  exact h.1 (by decide) true

/-- C6: every `commit_track` appends exactly one entry to
`committed_lineages` — the session lineage with every parent and child id
shifted by that commit's id offset — leaving all previously committed
lineages in place unmodified; `_reset_tracking_state` resets only the
session lineage and track id, never the committed lineages. -/
theorem commit_track_lineage_spec (s : TrackState) :
    (commitTrack s).committed_lineages
      = s.committed_lineages
        ++ [shiftLineage (commitImpl s.z_range s.current_object s.committed).1 s.lineage] ∧
    (commitTrack s).committed_lineages.take s.committed_lineages.length
      = s.committed_lineages ∧
    (resetTrackingState s).committed_lineages = s.committed_lineages ∧
    (resetTrackingState s).lineage = [(1, [])] ∧
    (resetTrackingState s).current_track_id = 1 := by
  refine ⟨rfl, ?_, rfl, rfl, rfl⟩
  exact List.take_left _ _

/-! ### AMG state cache (_widgets.py `_instance_segmentation_impl` 607-651;
annotator_3d.py `_autosegment_widget` 141-178, `_load_amg_state` 181-195)

The AMG state blobs are opaque; they are embedded as `Nat` produced by an
abstract `compute : Nat → Nat` standing for
`amg.initialize(...); amg.get_state()` on a slice index.  The cache dict
(`state.amg_state` / `AMG_STATE`) holds integer slice keys next to a
`"cache_folder"` entry; the pickle files written under the cache folder
are the `disk` association list.  The `cache_path` branch of
`_instance_segmentation_impl` (lines 636-643) is dead in every run of the
sources — no caller ever configures a `"cache_path"` entry — and is
omitted.  The result triple is `(cache, state blob, initialized?)`, where
the flag records whether the per-slice initialization was recomputed. -/

structure AmgCache where
  entries : List (Nat × Nat)
  cacheFolder : Bool
  disk : List (Nat × Nat)
deriving DecidableEq

/-- The 3d branch (`state.amg_state is not None`) of
`_instance_segmentation_impl`: on a hit the stored state is reused via
`set_state`; on a miss the state is computed, stored under key `i`, and
pickled when a cache folder is configured. -/
def instanceSegmentationState (compute : Nat → Nat) (c : AmgCache) (i : Nat) :
    AmgCache × Nat × Bool :=
  match c.entries.lookup i with
  | some b => (c, b, false)
  | none =>
      let b := compute i
      let entries' := setEntry c.entries i b
      let disk' := if c.cacheFolder then setEntry c.disk i b else c.disk
      ({ c with entries := entries', disk := disk' }, b, true)

/-- `_autosegment_widget`: on a hit the stored state is reused via
`set_state`; on a miss the state is computed and pickled when a cache
folder is configured, but `AMG_STATE[i]` is never assigned. -/
def autosegmentWidgetState (compute : Nat → Nat) (c : AmgCache) (i : Nat) :
    AmgCache × Nat × Bool :=
  match c.entries.lookup i with
  | some b => (c, b, false)
  | none =>
      let b := compute i
      let disk' := if c.cacheFolder then setEntry c.disk i b else c.disk
      ({ c with disk := disk' }, b, true)

/-- `_load_amg_state`: with no usable embedding path the cache starts empty
with no cache folder; otherwise every pickled per-slice state in the cache
folder is loaded under its slice key. -/
def loadAmgState (folderUsable : Bool) (disk : List (Nat × Nat)) : AmgCache :=
  if folderUsable then { entries := disk, cacheFolder := true, disk := disk }
  else { entries := [], cacheFolder := false, disk := [] }

end MicroSam

namespace MicroSam

/-- C4 counterexample: in `_autosegment_widget` a cache miss does not store
the computed state under key `i`: starting from an empty cache, the first
request for slice 0 recomputes (flag `true`), the resulting cache still
has no entry for 0, and a second request for slice 0 recomputes again —
refuting "stored in the cache under key i ... and reused on every
subsequent request for slice i" for this operation. -/
theorem amg_cache_reuse_counterexample :
    ((autosegmentWidgetState (fun n => n + 1)
        { entries := [], cacheFolder := true, disk := [] } 0).2.2 = true) ∧
    ((autosegmentWidgetState (fun n => n + 1)
        { entries := [], cacheFolder := true, disk := [] } 0).1.entries.lookup 0 = none) ∧
    ((autosegmentWidgetState (fun n => n + 1)
        (autosegmentWidgetState (fun n => n + 1)
          { entries := [], cacheFolder := true, disk := [] } 0).1 0).2.2 = true) := by
  decide

/-- C4 (amended): both automatic-segmentation operations consult the AMG
state cache keyed by slice index and, on a hit, reuse the stored state via
`set_state` without recomputing the per-slice initialization.  On a miss,
`_instance_segmentation_impl` creates the state, stores it under key `i`,
persists it to the cache store when a cache folder is configured, and
reuses it on every subsequent request for slice `i`; `_autosegment_widget`
creates and persists the state when a cache folder is configured but does
not store it in the in-memory cache — an entry for slice `i` is reused only
when already present, e.g. loaded from the persisted store by
`_load_amg_state`. -/
theorem amg_state_cache_spec (compute : Nat → Nat) (c : AmgCache) (i : Nat) :
    (∀ b, c.entries.lookup i = some b →
        instanceSegmentationState compute c i = (c, b, false)) ∧
    (c.entries.lookup i = none →
        (instanceSegmentationState compute c i).2.1 = compute i ∧
        (instanceSegmentationState compute c i).2.2 = true ∧
        (instanceSegmentationState compute c i).1.entries.lookup i = some (compute i) ∧
        (c.cacheFolder = true →
          (instanceSegmentationState compute c i).1.disk.lookup i = some (compute i)) ∧
        instanceSegmentationState compute (instanceSegmentationState compute c i).1 i
          = ((instanceSegmentationState compute c i).1, compute i, false)) ∧
    (∀ b, c.entries.lookup i = some b →
        autosegmentWidgetState compute c i = (c, b, false)) ∧
    (c.entries.lookup i = none →
        (autosegmentWidgetState compute c i).2.2 = true ∧
        (c.cacheFolder = true →
          (autosegmentWidgetState compute c i).1.disk.lookup i = some (compute i)) ∧
        (autosegmentWidgetState compute c i).1.entries = c.entries) ∧
    (∀ disk b, disk.lookup i = some b →
        autosegmentWidgetState compute (loadAmgState true disk) i
          = (loadAmgState true disk, b, false)) := by
  refine ⟨?_, ?_, ?_, ?_, ?_⟩
  · intro b hb
    simp [instanceSegmentationState, hb]
  · intro hn
    refine ⟨?_, ?_, ?_, ?_, ?_⟩
    · simp [instanceSegmentationState, hn]
    · simp [instanceSegmentationState, hn]
    · simp [instanceSegmentationState, hn, lookup_setEntry_self]
    · intro hf
      simp [instanceSegmentationState, hn, hf, lookup_setEntry_self]
    · have hset : (instanceSegmentationState compute c i).1.entries.lookup i
          = some (compute i) := by
        simp [instanceSegmentationState, hn, lookup_setEntry_self]
      simp [instanceSegmentationState, hn]
      simp only [instanceSegmentationState, hn] at hset ⊢
      simp [hset]
  · intro b hb
    simp [autosegmentWidgetState, hb]
  · intro hn
    refine ⟨?_, ?_, ?_⟩
    · simp [autosegmentWidgetState, hn]
    · intro hf
      simp [autosegmentWidgetState, hn, hf, lookup_setEntry_self]
    · simp [autosegmentWidgetState, hn]
  · intro disk b hb
    simp [autosegmentWidgetState, loadAmgState, hb]

/-- Witness for C4 (amended) at a concrete input: an empty cache with a
configured cache folder, slice 0, `compute = (· + 7)`. -/
theorem amg_state_cache_spec_witness :
    (instanceSegmentationState (fun n => n + 7)
        { entries := [], cacheFolder := true, disk := [] } 0).1.entries.lookup 0
      = some 7 ∧
    autosegmentWidgetState (fun n => n + 7) (loadAmgState true [(0, 7)]) 0
      = (loadAmgState true [(0, 7)], 7, false) := by
  have h := amg_state_cache_spec (fun n => n + 7)
    { entries := [], cacheFolder := true, disk := [] } 0
  exact ⟨(h.2.1 (by decide)).2.2.1, h.2.2.2.2 [(0, 7)] 7 (by decide)⟩

/-! ### Interactive segmentation widgets (_widgets.py `segment` 402-429,
`segment_slice` 432-458, `segment_frame` 523-554;
annotator_3d.py `_segment_slice_wigdet` 28-53)

`vutil.point_layer_to_prompts` and `vutil.prompt_segmentation` live in
`sam_annotator.util`, outside the sources; the former is modelled from the
spec and the latter is an abstract parameter. -/

inductive PromptLabel where
  | positive
  | negative
  | stopMarker
deriving DecidableEq

structure PointAnnotation where
  slice : Nat
  track_id : Nat
  label : PromptLabel
deriving DecidableEq

def matchesPrompt (i : Nat) (tid : Option Nat) (p : PointAnnotation) : Bool :=
  p.slice == i && (match tid with | none => true | some t => p.track_id == t)

/-- Modelled from the spec: `point_layer_to_prompts` (missing
`sam_annotator/util.py`) extracts the point prompts of slice `i` (filtered
by track id when one is given) and returns the stop directive — `none` —
exactly when the matching point set consists solely of a single stop-marker
label; an empty match is "no annotation" and is returned as
`some ([], [])`, distinct from the directive. -/
def point_layer_to_prompts (layer : List PointAnnotation) (i : Nat)
    (tid : Option Nat) : Option (List PointAnnotation × List PromptLabel) :=
  let pts := layer.filter (matchesPrompt i tid)
  if pts.map (·.label) = [PromptLabel.stopMarker] then none
  else some (pts, pts.map (·.label))

structure AnnotatorLayers where
  current_object : List (List Nat)
  point_layer : List PointAnnotation
deriving DecidableEq

/-- `segment` (2d widget): prompts are read with
`with_stop_annotation=False` (no stop check); if the segmenter returns
`None` the segmentation is skipped, else the whole `current_object` layer
is replaced. -/
def segment_widget_2d
    (segmenter : List PointAnnotation → List PromptLabel → Option (List (List Nat)))
    (layers : AnnotatorLayers) : AnnotatorLayers :=
  let points := layers.point_layer
  let labels := points.map (·.label)
  match segmenter points labels with
  | none => layers
  | some seg => { layers with current_object := seg }

/-- `segment_slice`: a stop prompt returns before the segmenter is
invoked; a `None` segmentation is skipped; otherwise slice `z` of
`current_object` is replaced.  The returned flag records whether the
segmenter was invoked. -/
def segment_slice
    (segmenter : List PointAnnotation → List PromptLabel → Nat → Option (List Nat))
    (layers : AnnotatorLayers) (z : Nat) : AnnotatorLayers × Bool :=
  match point_layer_to_prompts layers.point_layer z none with
  | none => (layers, false)
  | some (points, labels) =>
      match segmenter points labels z with
      | none => (layers, true)
      | some seg => ({ layers with current_object := layers.current_object.set z seg }, true)

def clearOldTrackMask (track_id : Nat) (frame : List Nat) : List Nat :=
  frame.map (fun v => if v = track_id then 0 else v)

def applyNewMask (track_id : Nat) (mask : List Bool) (frame : List Nat) : List Nat :=
  List.zipWith (fun b v => if b then track_id else v) mask frame

/-- The frame update of `segment_frame` (lines 548-554): within frame `t`,
first clear the pixels labelled `current_track_id`, then write
`current_track_id` at the pixels of the new mask. -/
def segmentFrameUpdate (vol : List (List Nat)) (t : Nat) (track_id : Nat)
    (mask : List Bool) : List (List Nat) :=
  vol.set t (applyNewMask track_id mask (clearOldTrackMask track_id (vol.getD t [])))

/-- `segment_frame`: prompts are filtered by the current track id; a stop
prompt returns before the segmenter is invoked; a `None` segmentation is
skipped; otherwise frame `t` is updated via `new_mask = (seg == 1)`. -/
def segment_frame
    (segmenter : List PointAnnotation → List PromptLabel → Nat → Option (List Nat))
    (track_id : Nat) (layers : AnnotatorLayers) (t : Nat) : AnnotatorLayers × Bool :=
  match point_layer_to_prompts layers.point_layer t (some track_id) with
  | none => (layers, false)
  | some (points, labels) =>
      match segmenter points labels t with
      | none => (layers, true)
      | some seg =>
          ({ layers with current_object :=
              segmentFrameUpdate layers.current_object t track_id (seg.map (· == 1)) }, true)

end MicroSam

namespace MicroSam

/-- C7: when the point-prompt layer yields the stop-marker directive for
the target slice (its matching point set is exactly one stop-marker
label), `segment_slice` and `segment_frame` return immediately: the
segmenter is not invoked and no layer is modified.  The no-annotation case
(empty matching point set) is distinguished: the prompts are
`some ([], [])`, the segmenter is invoked, and (the oracle returning
`None` on empty prompts) the operation merely skips, also leaving the
layers unchanged. -/
theorem stop_marker_spec
    (segmenter : List PointAnnotation → List PromptLabel → Nat → Option (List Nat))
    (track_id : Nat) (layers : AnnotatorLayers) (z t : Nat) :
    (((layers.point_layer.filter (matchesPrompt z none)).map (·.label)
          = [PromptLabel.stopMarker] →
        segment_slice segmenter layers z = (layers, false)) ∧
     ((layers.point_layer.filter (matchesPrompt t (some track_id))).map (·.label)
          = [PromptLabel.stopMarker] →
        segment_frame segmenter track_id layers t = (layers, false))) ∧
    (layers.point_layer.filter (matchesPrompt z none) = [] →
        point_layer_to_prompts layers.point_layer z none = some ([], []) ∧
        (segmenter [] [] z = none →
          segment_slice segmenter layers z = (layers, true))) := by
  refine ⟨⟨?_, ?_⟩, ?_⟩
  · intro hstop
    simp [segment_slice, point_layer_to_prompts, hstop]
  · intro hstop
    simp [segment_frame, point_layer_to_prompts, hstop]
  · intro hempty
    have hp : point_layer_to_prompts layers.point_layer z none = some ([], []) := by
      simp [point_layer_to_prompts, hempty]
    refine ⟨hp, ?_⟩
    intro hseg
    simp [segment_slice, hp, hseg]

/-- Witness for C7 at a concrete input: a point layer holding a single
stop-marker point on slice 0 triggers the stop directive, and slice 1,
which has no matching points, is the no-annotation case. -/
theorem stop_marker_spec_witness :
    segment_slice (fun _ _ _ => none)
        { current_object := [[3, 0], [0, 0]],
          point_layer := [{ slice := 0, track_id := 1, label := PromptLabel.stopMarker }] } 0
      = ({ current_object := [[3, 0], [0, 0]],
           point_layer := [{ slice := 0, track_id := 1, label := PromptLabel.stopMarker }] },
         false) ∧
    segment_slice (fun _ _ _ => none)
        { current_object := [[3, 0], [0, 0]],
          point_layer := [{ slice := 0, track_id := 1, label := PromptLabel.stopMarker }] } 1
      = ({ current_object := [[3, 0], [0, 0]],
           point_layer := [{ slice := 0, track_id := 1, label := PromptLabel.stopMarker }] },
         true) := by
  have h0 := stop_marker_spec (fun _ _ _ => none) 1
    { current_object := [[3, 0], [0, 0]],
      point_layer := [{ slice := 0, track_id := 1, label := PromptLabel.stopMarker }] } 0 0
  have h1 := stop_marker_spec (fun _ _ _ => none) 1
    { current_object := [[3, 0], [0, 0]],
      point_layer := [{ slice := 0, track_id := 1, label := PromptLabel.stopMarker }] } 1 1
  exact ⟨h0.1.1 (by decide), (h1.2 (by decide)).2 (by decide)⟩

/-- C8: whenever the slice segmentation returns `None`, the segment
widgets treat it as a normal skip signal: `segment` (2d) and
`segment_slice` return normally with the `current_object` layer data (and
the whole layer state) unchanged. -/
theorem segment_none_skip_spec
    (segmenter2d : List PointAnnotation → List PromptLabel → Option (List (List Nat)))
    (segmenter : List PointAnnotation → List PromptLabel → Nat → Option (List Nat))
    (layers : AnnotatorLayers) (z : Nat) :
    (segmenter2d layers.point_layer (layers.point_layer.map (·.label)) = none →
        segment_widget_2d segmenter2d layers = layers) ∧
    (∀ points labels,
        point_layer_to_prompts layers.point_layer z none = some (points, labels) →
        segmenter points labels z = none →
        segment_slice segmenter layers z = (layers, true)) := by
  refine ⟨?_, ?_⟩
  · intro hseg
    simp [segment_widget_2d, hseg]
  · intro points labels hp hseg
    simp [segment_slice, hp, hseg]

/-- Witness for C8 at a concrete input: a segmenter constantly returning
`None` leaves the layers of a small annotator state unchanged in both
widgets. -/
theorem segment_none_skip_spec_witness :
    segment_widget_2d (fun _ _ => none)
        { current_object := [[1, 2]],
          point_layer := [{ slice := 0, track_id := 1, label := PromptLabel.positive }] }
      = { current_object := [[1, 2]],
          point_layer := [{ slice := 0, track_id := 1, label := PromptLabel.positive }] } ∧
    segment_slice (fun _ _ _ => none)
        { current_object := [[1, 2]],
          point_layer := [{ slice := 0, track_id := 1, label := PromptLabel.positive }] } 0
      = ({ current_object := [[1, 2]],
           point_layer := [{ slice := 0, track_id := 1, label := PromptLabel.positive }] },
         true) := by
  have h := segment_none_skip_spec (fun _ _ => none) (fun _ _ _ => none)
    { current_object := [[1, 2]],
      point_layer := [{ slice := 0, track_id := 1, label := PromptLabel.positive }] } 0
  refine ⟨h.1 (by decide), ?_⟩
  exact h.2 [{ slice := 0, track_id := 1, label := PromptLabel.positive }]
    [PromptLabel.positive] (by decide) (by decide)

/-! ### `_segment_volume_for_auto_segmentation` (annotator_3d.py, 77-102)

Before per-object propagation the code reads
`object_ids = np.unique(seg[start_slice])` (dropping a leading background
id when `with_background`), then runs `seg[:start_slice] = 0`; the
following line `seg[(start_slice+1):]` is a bare expression and leaves the
upper slices unchanged. -/

def clearBelow (start : Nat) : Nat → List (List Nat) → List (List Nat)
  | _, [] => []
  | z, s :: rest =>
      (if z < start then List.replicate s.length 0 else s) :: clearBelow start (z + 1) rest

def clearBelowStart (seg : List (List Nat)) (start : Nat) : List (List Nat) :=
  clearBelow start 0 seg

def sortedInsert (x : Nat) : List Nat → List Nat
  | [] => [x]
  | y :: t => if x ≤ y then x :: y :: t else y :: sortedInsert x t

/-- `np.unique`: the sorted distinct values. -/
def npUnique (xs : List Nat) : List Nat := xs.dedup.foldr sortedInsert []

def objectIds (seg : List (List Nat)) (start : Nat) (with_background : Bool) : List Nat :=
  let ids := npUnique (seg.getD start [])
  if with_background ∧ ids.getD 0 1 = 0 then ids.drop 1 else ids

theorem getD_replicate_zero (n j : Nat) : (List.replicate n (0 : Nat)).getD j 0 = 0 := by
  induction n generalizing j with
  | zero => cases j <;> rfl
  | succ n ih => cases j with
    | zero => rfl
    | succ j => simpa [List.replicate] using ih j

theorem clearBelow_getD (start : Nat) (seg : List (List Nat)) :
    ∀ z0 i, (clearBelow start z0 seg).getD i [] =
      if z0 + i < start then List.replicate ((seg.getD i []).length) 0
      else seg.getD i [] := by
  induction seg with
  | nil =>
    intro z0 i
    simp only [clearBelow]
    split <;> cases i <;> rfl
  | cons s rest ih =>
    intro z0 i
    cases i with
    | zero =>
      simp only [clearBelow, List.getD_cons_zero, Nat.add_zero]
    | succ i =>
      have := ih (z0 + 1) i
      have harith : z0 + 1 + i = z0 + (i + 1) := by omega
      rw [harith] at this
      simpa only [clearBelow, List.getD_cons_succ] using this

/-! ### The frame update in `segment_frame` (_widgets.py, 548-554) -/

theorem getD_set_ne (l : List (List Nat)) :
    ∀ (t z : Nat) (f : List Nat), z ≠ t → (l.set t f).getD z [] = l.getD z [] := by
  induction l with
  | nil => intro t z f _; rfl
  | cons x rest ih =>
    intro t z f hz
    cases t with
    | zero =>
      cases z with
      | zero => exact absurd rfl hz
      | succ z => rfl
    | succ t =>
      cases z with
      | zero => rfl
      | succ z => simpa [List.set] using ih t z f (by omega)

theorem getD_set_self (l : List (List Nat)) :
    ∀ (t : Nat) (f : List Nat), t < l.length → (l.set t f).getD t [] = f := by
  induction l with
  | nil => intro t f ht; simp at ht
  | cons x rest ih =>
    intro t f ht
    cases t with
    | zero => rfl
    | succ t => simpa [List.set] using ih t f (by simpa using ht)

theorem applyClear_getD (tid : Nat) :
    ∀ (frame : List Nat) (mask : List Bool) (j : Nat),
      mask.length = frame.length → j < frame.length →
      (applyNewMask tid mask (clearOldTrackMask tid frame)).getD j 0
        = if mask.getD j false then tid
          else if frame.getD j 0 = tid then 0 else frame.getD j 0 := by
  intro frame
  induction frame with
  | nil => intro mask j _ hj; simp at hj
  | cons v rest ih =>
    intro mask j hlen hj
    cases mask with
    | nil => simp at hlen
    | cons b mb =>
      cases j with
      | zero =>
        by_cases hb : b <;> by_cases hv : v = tid <;>
          simp [applyNewMask, clearOldTrackMask, hb, hv]
      | succ j =>
        have := ih mb j (by simpa using hlen) (by simpa using hj)
        simpa [applyNewMask, clearOldTrackMask] using this

theorem map_beq_getD (seg : List Nat) :
    ∀ j, j < seg.length → (seg.map (· == 1)).getD j false = (seg.getD j 0 == 1) := by
  induction seg with
  | nil => intro j hj; simp at hj
  | cons v rest ih =>
    intro j hj
    cases j with
    | zero => rfl
    | succ j => simpa using ih j (by simpa using hj)

theorem applyClear_length (tid : Nat) (frame : List Nat) (mask : List Bool)
    (hlen : mask.length = frame.length) :
    (applyNewMask tid mask (clearOldTrackMask tid frame)).length = frame.length := by
  simp [applyNewMask, clearOldTrackMask, hlen]

end MicroSam

namespace MicroSam

/-- C9: in the auto-segmentation volume propagation, the pre-propagation
clearing zeroes the content of every slice strictly below the start slice
and leaves every slice at or above the start slice — in particular every
slice strictly above it — unchanged; the start slice keeps its objects, so
the seed object ids read from it are unaffected by the clearing. -/
theorem auto_segmentation_clear_spec (seg : List (List Nat)) (start : Nat) :
    (∀ z j, z < start → ((clearBelowStart seg start).getD z []).getD j 0 = 0) ∧
    (∀ z, start ≤ z → (clearBelowStart seg start).getD z [] = seg.getD z []) ∧
    objectIds (clearBelowStart seg start) start true = objectIds seg start true := by
  have hget := clearBelow_getD start seg 0
  simp only [Nat.zero_add] at hget
  have hkeep : ∀ z, start ≤ z → (clearBelowStart seg start).getD z [] = seg.getD z [] := by
    intro z hz
    rw [clearBelowStart, hget z, if_neg (by omega)]
  refine ⟨?_, hkeep, ?_⟩
  · intro z j hz
    rw [clearBelowStart, hget z, if_pos hz, getD_replicate_zero]
  · unfold objectIds
    rw [hkeep start (Nat.le_refl start)]

/-- Witness for C9 at a concrete input: volume `[[1], [2, 0], [3]]` with
start slice 1. -/
theorem auto_segmentation_clear_spec_witness :
    ((clearBelowStart [[1], [2, 0], [3]] 1).getD 0 []).getD 0 0 = 0 ∧
    (clearBelowStart [[1], [2, 0], [3]] 1).getD 2 [] = [3] ∧
    objectIds (clearBelowStart [[1], [2, 0], [3]] 1) 1 true
      = objectIds [[1], [2, 0], [3]] 1 true := by
  have h := auto_segmentation_clear_spec [[1], [2, 0], [3]] 1
  exact ⟨h.1 0 0 (by decide), h.2.1 2 (by decide), h.2.2⟩

/-- C10: segmenting a single frame in tracking mode modifies only frame
`t` of `current_object`: within that frame a pixel of the new mask
(`seg == 1`) becomes the current track id, a pixel previously labelled
with the current track id and outside the new mask becomes background, and
every other pixel — and every frame other than `t` — retains its previous
label; the point layer and all array lengths are preserved. -/
theorem segment_frame_effect_spec
    (segmenter : List PointAnnotation → List PromptLabel → Nat → Option (List Nat))
    (track_id : Nat) (layers : AnnotatorLayers) (t : Nat)
    (points : List PointAnnotation) (labels : List PromptLabel) (seg : List Nat)
    (hp : point_layer_to_prompts layers.point_layer t (some track_id) = some (points, labels))
    (hs : segmenter points labels t = some seg)
    (ht : t < layers.current_object.length)
    (hlen : seg.length = (layers.current_object.getD t []).length) :
    (segment_frame segmenter track_id layers t).1.point_layer = layers.point_layer ∧
    (∀ z, z ≠ t →
      (segment_frame segmenter track_id layers t).1.current_object.getD z []
        = layers.current_object.getD z []) ∧
    (∀ j, j < (layers.current_object.getD t []).length →
      ((segment_frame segmenter track_id layers t).1.current_object.getD t []).getD j 0
        = if seg.getD j 0 = 1 then track_id
          else if (layers.current_object.getD t []).getD j 0 = track_id then 0
          else (layers.current_object.getD t []).getD j 0) ∧
    ((segment_frame segmenter track_id layers t).1.current_object.getD t []).length
      = (layers.current_object.getD t []).length ∧
    (segment_frame segmenter track_id layers t).1.current_object.length
      = layers.current_object.length := by
  have hstep : (segment_frame segmenter track_id layers t).1
      = { layers with current_object :=
            segmentFrameUpdate layers.current_object t track_id (seg.map (· == 1)) } := by
    simp [segment_frame, hp, hs]
  have hmlen : (seg.map (· == 1)).length = (layers.current_object.getD t []).length := by
    simpa using hlen
  have hframe : (segment_frame segmenter track_id layers t).1.current_object.getD t []
      = applyNewMask track_id (seg.map (· == 1))
          (clearOldTrackMask track_id (layers.current_object.getD t [])) := by
    rw [hstep]
    exact getD_set_self _ t _ ht
  refine ⟨by rw [hstep], ?_, ?_, ?_, ?_⟩
  · intro z hz
    rw [hstep]
    exact getD_set_ne _ t z _ hz
  · intro j hj
    rw [hframe, applyClear_getD track_id _ _ j hmlen hj,
      map_beq_getD seg j (by omega)]
    by_cases h1 : seg.getD j 0 = 1 <;> simp [h1]
  · rw [hframe]
    exact applyClear_length _ _ _ hmlen
  · rw [hstep]
    simp [segmentFrameUpdate]

/-- Witness for C10 at a concrete input: frame 0 of `[[5, 1, 0], [7, 7]]`
with current track id 5 and new segmentation `[0, 1, 0]` becomes
`[0, 5, 0]`, frame 1 is untouched. -/
theorem segment_frame_effect_spec_witness :
    ((segment_frame (fun _ _ _ => some [0, 1, 0]) 5
        { current_object := [[5, 1, 0], [7, 7]],
          point_layer := [{ slice := 0, track_id := 5, label := PromptLabel.positive }] }
        0).1.current_object.getD 1 [] = [7, 7]) ∧
    (((segment_frame (fun _ _ _ => some [0, 1, 0]) 5
        { current_object := [[5, 1, 0], [7, 7]],
          point_layer := [{ slice := 0, track_id := 5, label := PromptLabel.positive }] }
        0).1.current_object.getD 0 []).getD 1 0 = 5) ∧
    (((segment_frame (fun _ _ _ => some [0, 1, 0]) 5
        { current_object := [[5, 1, 0], [7, 7]],
          point_layer := [{ slice := 0, track_id := 5, label := PromptLabel.positive }] }
        0).1.current_object.getD 0 []).getD 0 0 = 0) := by
  have h := segment_frame_effect_spec (fun _ _ _ => some [0, 1, 0]) 5
    { current_object := [[5, 1, 0], [7, 7]],
      point_layer := [{ slice := 0, track_id := 5, label := PromptLabel.positive }] }
    0
    [{ slice := 0, track_id := 5, label := PromptLabel.positive }]
    [PromptLabel.positive] [0, 1, 0]
    (by decide) (by decide) (by decide) (by decide)
  refine ⟨h.2.1 1 (by decide), ?_, ?_⟩
  · have := h.2.2.1 1 (by decide)
    simpa using this
  · have := h.2.2.1 0 (by decide)
    simpa using this

end MicroSam

namespace MicroSam

/-- C5: For every input to the tiling normalization `_process_tiling_inputs`:
if both tile-shape components are 0 the resulting tile shape is `none`;
if at least one tile-shape component is nonzero, both components of the
resulting tile shape are at least 256; the resulting halo is `none` exactly
when the resulting tile shape is `none`; and when only one of the two halo
axes is nonzero while tiling is requested, both axes of the resulting halo
are the maximum of the two halo inputs. -/
theorem process_tiling_inputs_spec (tsx tsy hx hy : Nat) :
    (tsx = 0 ∧ tsy = 0 → (process_tiling_inputs tsx tsy hx hy).1 = none) ∧
    (tsx ≠ 0 ∨ tsy ≠ 0 →
      ∃ a b, (process_tiling_inputs tsx tsy hx hy).1 = some (a, b) ∧ 256 ≤ a ∧ 256 ≤ b) ∧
    ((process_tiling_inputs tsx tsy hx hy).2 = none ↔
      (process_tiling_inputs tsx tsy hx hy).1 = none) ∧
    (((hx = 0 ∧ hy ≠ 0) ∨ (hx ≠ 0 ∧ hy = 0)) → (tsx ≠ 0 ∨ tsy ≠ 0) →
      (process_tiling_inputs tsx tsy hx hy).2 = some (max hx hy, max hx hy)) := by
  refine ⟨?_, ?_, ?_, ?_⟩
  · intro ⟨h1, h2⟩
    simp [process_tiling_inputs, processTilingTileShape, h1, h2]
  · intro h
    simp only [process_tiling_inputs, processTilingTileShape]
    split_ifs <;> first
      | omega
      | exact ⟨_, _, rfl, by omega, by omega⟩
  · simp only [process_tiling_inputs, processTilingHalo, processTilingTileShape]
    split_ifs <;> simp_all
  · intro hh hts
    have hne : processTilingTileShape tsx tsy ≠ none := by
      simp only [processTilingTileShape]
      split_ifs <;> simp <;> omega
    simp only [process_tiling_inputs, processTilingHalo]
    split_ifs with h0
    · omega
    · match hts' : processTilingTileShape tsx tsy with
      | none => exact absurd hts' hne
      | some p => rfl

/-- Witness for C5 at a concrete input: tile shape `(100, 0)` and halo
`(0, 12)` normalize to tile shape `(256, 256)` and halo `(12, 12)`. -/
theorem process_tiling_inputs_spec_witness :
    ∃ a b, (process_tiling_inputs 100 0 0 12).1 = some (a, b) ∧ 256 ≤ a ∧ 256 ≤ b ∧
      (process_tiling_inputs 100 0 0 12).2 = some (max 0 12, max 0 12) := by
  obtain ⟨-, h2, -, h4⟩ := process_tiling_inputs_spec 100 0 0 12
  obtain ⟨a, b, hab, ha, hb⟩ := h2 (by omega)
  exact ⟨a, b, hab, ha, hb, h4 (by omega) (by omega)⟩

end MicroSam
